import Mathlib

set_option autoImplicit false

/-!
Verification of the row-extraction and job-lifecycle logic of the
billing-PDF extraction service (`src/index.js`, with the two historical
variants `src/unnamed/part_000` and `src/unnamed/part_001`).

The embedding models JavaScript strings over `List Char` / `String`:
`toUpperCase`, `includes`, `trim`, the `\s+` collapse, and the three
regular expressions used by the row filter (`/^\d+$/`, `/^\d+\s/`,
`/\d{2}\/\d{2}/`, `/[A-Z0-9]{5,}/`) are implemented character by
character.  All inputs exercised by the claims are ASCII, so the ASCII
case map and the ASCII whitespace class (plus NBSP) stand in for the
full Unicode-aware JavaScript behaviour.  Coordinates from pdf2json are
modelled as integers: the source only compares them for equality
(grouping by `y`) and order (sorting by `x`), never for float-specific
behaviour.
-/

namespace CmomApi

/-- The JavaScript `\s` whitespace class, restricted to the ASCII range
plus NBSP (the full class also holds Unicode separators, which no claim
exercises). -/
def jsWhitespace (c : Char) : Bool :=
  c == ' ' || c == '\t' || c == '\n' || c == '\x0d' || c == '\x0b' || c == '\x0c' || c == '\xa0'

/-- The JavaScript `\d` class: the ASCII digits. -/
def isDigitCh (c : Char) : Bool :=
  '0' ≤ c && c ≤ '9'

/-- ASCII case map of `String.prototype.toUpperCase` on one character
(every input the claims exercise is ASCII). -/
def charUpperJs (c : Char) : Char :=
  if 'a' ≤ c && c ≤ 'z' then Char.ofNat (c.toNat - 32) else c

/-- JavaScript `s.toUpperCase()` over ASCII text. -/
def toUpperJs (s : String) : String :=
  String.mk (s.toList.map charUpperJs)

/-- `rows.join(' ')` on character lists. -/
def joinChars : List (List Char) → List Char
  | [] => []
  | [x] => x
  | x :: xs => x ++ ' ' :: joinChars xs

/-- JavaScript `rows.join(' ')`. -/
def joinWithSpace (rows : List String) : String :=
  String.mk (joinChars (rows.map String.toList))

/-- One character of the `/[A-Z0-9]{5,}/` class from the row filter. -/
def isUpperAlnum (c : Char) : Bool :=
  ('A' ≤ c && c ≤ 'Z') || isDigitCh c

/-- Whether `pat` is an initial segment of `l` (character lists). -/
def isPrefixOfChars : List Char → List Char → Bool
  | [], _ => true
  | _ :: _, [] => false
  | a :: as, b :: bs => a == b && isPrefixOfChars as bs

/-- Whether `pat` occurs contiguously inside `l`: the semantics of
JavaScript `String.prototype.includes` over character lists. -/
def isInfixOfChars (pat : List Char) : List Char → Bool
  | [] => pat.isEmpty
  | c :: rest => isPrefixOfChars pat (c :: rest) || isInfixOfChars pat rest

/-- JavaScript `s.includes(pat)`. -/
def containsStr (s pat : String) : Bool :=
  isInfixOfChars pat.toList s.toList

/-- JavaScript `s.endsWith(suffix)`. -/
def endsWithJs (s suffix : String) : Bool :=
  isPrefixOfChars suffix.toList.reverse s.toList.reverse

/-- JavaScript `s.trim()` (drop leading and trailing whitespace). -/
def trimJs (s : String) : String :=
  String.mk (((s.toList.dropWhile jsWhitespace).reverse.dropWhile jsWhitespace).reverse)

/-- One pass of `s.replace(/\s+/g, ' ')`: every maximal whitespace run
becomes a single space.  `prevWs` records whether the previous character
belonged to a run already replaced. -/
def collapseGo : Bool → List Char → List Char
  | _, [] => []
  | prevWs, c :: rest =>
    if jsWhitespace c then
      if prevWs then collapseGo true rest
      else ' ' :: collapseGo true rest
    else c :: collapseGo false rest

/-- JavaScript `s.replace(/\s+/g, ' ')`. -/
def collapseWs (s : String) : String :=
  String.mk (collapseGo false s.toList)

/-- The test `/^\d+$/.test(line)`: the line is one or more digits and
nothing else. -/
def testAllDigits (s : String) : Bool :=
  !s.toList.isEmpty && s.toList.all isDigitCh

/-- The test `/^\d+\s/.test(line)`: one or more digits at the start,
immediately followed by a whitespace character. -/
def testDigitsThenSpace (s : String) : Bool :=
  match s.toList with
  | [] => false
  | c :: rest =>
    isDigitCh c &&
      match rest.dropWhile isDigitCh with
      | [] => false
      | d :: _ => jsWhitespace d

/-- The test `/\d{2}\/\d{2}/.test(line)`: somewhere in the line, two
digits, a slash, two digits. -/
def hasDateRange : List Char → Bool
  | a :: b :: s :: c :: d :: rest =>
    (isDigitCh a && isDigitCh b && s == '/' && isDigitCh c && isDigitCh d)
      || hasDateRange (b :: s :: c :: d :: rest)
  | _ => false

/-- The test `/[A-Z0-9]{5,}/.test(line)`: five consecutive characters
each an ASCII capital letter or digit. -/
def hasRun5 : List Char → Bool
  | a :: b :: c :: d :: e :: rest =>
    (isUpperAlnum a && isUpperAlnum b && isUpperAlnum c && isUpperAlnum d && isUpperAlnum e)
      || hasRun5 (b :: c :: d :: e :: rest)
  | _ => false

/-! ## Row Filter (src/index.js lines 110-140) -/

/-- The `stopMarkers` array of src/index.js line 110. -/
def stopMarkers : List String :=
  ["AP'S OVERDUE", "AP'S DUE", "OVERDUE AP", "DUE CM", "SEPTEMBER", "ALL INTAKE", "NEEDS H0044", "CM"]

/-- `stopMarkers.some(marker => line.toUpperCase().includes(marker))`. -/
def stopHit (line : String) : Bool :=
  stopMarkers.any (fun marker => containsStr (toUpperJs line) marker)

/-- The data-row start test of src/index.js line 126:
`line.includes(',') || /\d{2}\/\d{2}/.test(line) || /[A-Z0-9]{5,}/.test(line)`. -/
def dataStart (line : String) : Bool :=
  containsStr line "," || hasDateRange line.toList || hasRun5 line.toList

/-- `currentRow.join(' ').trim()`. -/
def joinRow (row : List String) : String :=
  trimJs (joinWithSpace row)

/-- `if (currentRow.length) filteredLines.push(currentRow.join(' ').trim())`:
the flushed accumulator as a list fragment. -/
def flushRow (row : List String) : List String :=
  if row.isEmpty then [] else [joinRow row]

/-- The stateful filtering loop of src/index.js lines 115-130.  `cur` is
the `currentRow` accumulator; a stop-marker line flushes and terminates,
an all-digit line (or, with an empty accumulator, a digits-then-space
line) flushes and opens a new row, any line extends an open row, and a
comma / date-range / long-alphanumeric line opens a row. -/
def filterLoop : List String → List String → List String
  | cur, [] => flushRow cur
  | cur, line :: rest =>
    if stopHit line then flushRow cur
    else if testAllDigits line || (cur.isEmpty && testDigitsThenSpace line) then
      flushRow cur ++ filterLoop [line] rest
    else if !cur.isEmpty then
      filterLoop (cur ++ [line]) rest
    else if dataStart line then
      filterLoop [line] rest
    else
      filterLoop cur rest

/-- The output of the stateful pass (before the header-candidate
prepend and the fail-open fallback). -/
def passFilter (lines : List String) : List String :=
  filterLoop [] lines

/-- src/index.js line 133: every input line whose upper-cased form
contains `NAME`, `T1023` or `H0044`. -/
def headerCandidates (lines : List String) : List String :=
  lines.filter (fun line =>
    containsStr (toUpperJs line) "NAME" || containsStr (toUpperJs line) "T1023" ||
      containsStr (toUpperJs line) "H0044")

/-- The full Row Filter of src/index.js lines 110-140: the stateful
pass, then header candidates prepended when any exist, then the
fail-open fallback to the unfiltered lines when the result is empty. -/
def filteredLines (lines : List String) : List String :=
  let pass := passFilter lines
  let withHeader :=
    if (headerCandidates lines).isEmpty then pass else headerCandidates lines ++ pass
  if withHeader.isEmpty then lines else withHeader

/-- The position of the first line whose upper-cased form contains a
stop marker. -/
def firstStopIdx : List String → Option Nat
  | [] => none
  | line :: rest =>
    if stopHit line then some 0 else (firstStopIdx rest).map (· + 1)

/-! ## Text Line Extractor (src/index.js lines 86-101, src/unnamed/part_001 lines 86-103)

pdf2json coordinates are modelled as integers: the source only groups by
equality on `y` and orders by `x`, never using float-specific behaviour.
`decodeURIComponent` is an external runtime primitive; the extractor is
parametric in a decoder `dec : String → Option String`, where `none`
models the decoder throwing. -/

/-- One positioned text fragment from pdf2json: `text.x`, `text.y` and
the encoded payload `text.R[0].T`. -/
structure Frag where
  x : Int
  y : Int
  t : String
deriving DecidableEq

/-- One step of the `textsByRow[y].push(...)` grouping: file the
fragment under its `y` key, keeping first-occurrence key order and
arrival order inside each group. -/
def insertFrag (gs : List (Int × List Frag)) (f : Frag) : List (Int × List Frag) :=
  match gs with
  | [] => [(f.y, [f])]
  | (k, fs) :: rest => if k == f.y then (k, fs ++ [f]) :: rest else (k, fs) :: insertFrag rest f

/-- `textsByRow`: the page's fragments grouped by exact `y`. -/
def groupByY (page : List Frag) : List (Int × List Frag) :=
  page.foldl insertFrag []

/-- Insertion step of a stable ascending sort with boolean comparator
`le` (models the stable JavaScript `sort((a, b) => a.x - b.x)`). -/
def insertSorted {α : Type} (le : α → α → Bool) (a : α) : List α → List α
  | [] => [a]
  | b :: rest => if le a b then a :: b :: rest else b :: insertSorted le a rest

/-- Stable insertion sort by `le`. -/
def sortBy {α : Type} (le : α → α → Bool) : List α → List α
  | [] => []
  | a :: rest => insertSorted le a (sortBy le rest)

/-- `row.sort((a, b) => a.x - b.x)` over `(x, text)` pairs. -/
def sortPairsByX (l : List (Int × String)) : List (Int × String) :=
  sortBy (fun p q => decide (p.1 ≤ q.1)) l

/-- One extracted line of src/index.js line 99: decode the group's
fragments (a fragment whose decode throws is skipped), sort by `x`,
join with single spaces, collapse whitespace runs, trim. -/
def lineOfGroup (dec : String → Option String) (fs : List Frag) : String :=
  let pairs := fs.filterMap (fun f => (dec f.t).map (fun d => (f.x, d)))
  trimJs (collapseWs (joinWithSpace ((sortPairsByX pairs).map Prod.snd)))

/-- `allTextLines` of src/index.js lines 86-101: per page, the grouped,
sorted, joined lines, empty lines dropped (`filter(line => line)`). -/
def extractLines (dec : String → Option String) (pages : List (List Frag)) : List String :=
  pages.flatMap (fun page =>
    ((groupByY page).map (fun g => lineOfGroup dec g.2)).filter
      (fun line => !line.toList.isEmpty))

/-- `sortedY` of src/unnamed/part_001 line 101: the `y` groups ordered
by ascending key. -/
def sortGroupsByY (gs : List (Int × List Frag)) : List (Int × List Frag) :=
  sortBy (fun g h => decide (g.1 ≤ h.1)) gs

/-- The position-aware extractor of src/unnamed/part_001 lines 86-103:
every fragment is kept, a failed decode falls back to the raw text
(`decoded = text.R[0].T`), groups are ordered top-to-bottom and each
row left-to-right, fragments staying `(x, text)` pairs. -/
def pageRowsP1 (dec : String → Option String) (pages : List (List Frag)) :
    List (List (List (Int × String))) :=
  pages.map (fun page =>
    (sortGroupsByY (groupByY page)).map (fun g =>
      sortPairsByX (g.2.map (fun f => (f.x, (dec f.t).getD f.t)))))

/-! ## Oracle reply shape and row validation (src/index.js lines 209-229) -/

/-- A parsed JSON value.  Numbers are modelled as integers: the only
claim touching them is the wrong-type `MemberID: 123` example. -/
inductive Json where
  | null
  | bool (b : Bool)
  | num (n : Int)
  | str (s : String)
  | arr (elems : List Json)
  | obj (fields : List (String × Json))

/-- First-match key lookup in an object's field list (JSON objects from
`JSON.parse` have unique keys). -/
def lookupKey {β : Type} : List (String × β) → String → Option β
  | [], _ => none
  | (k2, v) :: rest, k => if k2 == k then some v else lookupKey rest k

/-- JavaScript property access `data.rows` on a parsed value: a field
of an object, `undefined` (`none`) on anything else. -/
def Json.getField : Json → String → Option Json
  | .obj fields, k => lookupKey fields k
  | _, _ => none

/-- The `UnifiedRowSchema` output: each of the nine fields is absent
(`none`), `null` (`some none`) or a string (`some (some s)`), exactly
the three states a zod `z.string().nullable().optional()` field can
take. -/
structure UnifiedRow where
  Name : Option (Option String)
  MemberID : Option (Option String)
  T1023AuthId : Option (Option String)
  T1023Range : Option (Option String)
  T1023BillDate : Option (Option String)
  H0044AuthId : Option (Option String)
  H0044Range : Option (Option String)
  H0044BillDate : Option (Option String)
  Paid : Option (Option String)
deriving DecidableEq

/-- The `{}` a failed validation is replaced with: all fields absent. -/
def emptyRow : UnifiedRow :=
  ⟨none, none, none, none, none, none, none, none, none⟩

/-- zod validation of one schema field: absent and `null` and string
pass, any other JSON type fails the whole parse. -/
def parseField (fields : List (String × Json)) (k : String) :
    Option (Option (Option String)) :=
  match lookupKey fields k with
  | none => some none
  | some .null => some (some none)
  | some (.str s) => some (some (some s))
  | some _ => none

/-- `UnifiedRowSchema.safeParse(row)`: succeeds exactly on a JSON
object whose nine known fields are each absent, null or a string
(unknown keys are stripped, non-objects fail). -/
def safeParse (j : Json) : Option UnifiedRow :=
  match j with
  | .obj fields => do
    let name ← parseField fields "Name"
    let memberId ← parseField fields "MemberID"
    let t1023AuthId ← parseField fields "T1023AuthId"
    let t1023Range ← parseField fields "T1023Range"
    let t1023BillDate ← parseField fields "T1023BillDate"
    let h0044AuthId ← parseField fields "H0044AuthId"
    let h0044Range ← parseField fields "H0044Range"
    let h0044BillDate ← parseField fields "H0044BillDate"
    let paid ← parseField fields "Paid"
    some ⟨name, memberId, t1023AuthId, t1023Range, t1023BillDate,
      h0044AuthId, h0044Range, h0044BillDate, paid⟩
  | _ => none

/-- The nine field values of a row, as `Object.values` sees them. -/
def rowVals (r : UnifiedRow) : List (Option (Option String)) :=
  [r.Name, r.MemberID, r.T1023AuthId, r.T1023Range, r.T1023BillDate,
    r.H0044AuthId, r.H0044Range, r.H0044BillDate, r.Paid]

/-- JavaScript truthiness of one field value under `val => val`: only a
present, non-empty string is truthy (absent fields do not appear in
`Object.values`, `null` and `""` are falsy). -/
def fieldTruthy : Option (Option String) → Bool
  | some (some s) => !s.toList.isEmpty
  | _ => false

/-- `Object.values(row).some(val => val)` of src/index.js line 229. -/
def rowTruthy (r : UnifiedRow) : Bool :=
  (rowVals r).any fieldTruthy

/-- Whether one field is absent or null (no string present). -/
def fieldBlank : Option (Option String) → Bool
  | some (some _) => false
  | _ => true

/-- An entirely empty row: every one of the nine fields null or absent. -/
def rowAllEmpty (r : UnifiedRow) : Bool :=
  (rowVals r).all fieldBlank

/-- `parsed.success ? parsed.data : {}` of src/index.js line 228. -/
def normalizeRow (j : Json) : UnifiedRow :=
  (safeParse j).getD emptyRow

/-- `rows.map(...).filter(...)` of src/index.js lines 226-229: validate
each row, blank the failures, drop rows with no truthy field. -/
def normalizeRows (rows : List Json) : List UnifiedRow :=
  (rows.map normalizeRow).filter rowTruthy

/-! ## The background task's terminal result (src/index.js lines 75-239) -/

/-- The terminal state the background task writes for a job. -/
inductive JobResult where
  | completed (data : List UnifiedRow)
  | error (msg : String)
deriving DecidableEq

/-- Stands for the message of the `SyntaxError` thrown by `JSON.parse`
on unparseable text; the exact wording comes from the JavaScript
runtime and is outside the source. -/
def jsonSyntaxErrorMsg : String :=
  "Unexpected token in JSON"

/-- The background task of src/index.js lines 75-239, from extracted
pages to the job's terminal state.  `reply` is the `JSON.parse` result
of the oracle's reply text (`none` = unparseable); the oracle call
itself and the prompt built from `filteredLines` are the external
collaborator.  Zero extracted lines throw
`No text extracted from PDF`; a reply without a `rows` array throws
`Invalid structure: missing "rows" array`; both are caught and written
as the `error` state; otherwise the validated, filtered rows are
written as `completed`. -/
def runJob (dec : String → Option String) (pages : List (List Frag))
    (reply : Option Json) : JobResult :=
  let allTextLines := extractLines dec pages
  if allTextLines.isEmpty then .error "No text extracted from PDF"
  else
    match reply with
    | none => .error jsonSyntaxErrorMsg
    | some data =>
      match data.getField "rows" with
      | some (.arr rows) => .completed (normalizeRows rows)
      | _ => .error "Invalid structure: missing \"rows\" array"

/-- A decoder that succeeds on everything (concrete witness inputs). -/
def decId : String → Option String :=
  fun s => some s

/-- A decoder that throws on everything (concrete witness inputs). -/
def decNone : String → Option String :=
  fun _ => none

/-! ## Job Registry (src/index.js lines 42, 65-73, 231-253)

`jobs` is a JavaScript `Map`; it is modelled as an association list
with `Map.set` / `Map.get` / `Map.delete` semantics. -/

/-- A job's stored lifecycle state. -/
inductive JobStatus where
  | pending
  | completed (data : List UnifiedRow)
  | error (msg : String)
deriving DecidableEq

/-- Whether a status is terminal (`completed` or `error`). -/
def isTerminal : JobStatus → Bool
  | .pending => false
  | .completed _ => true
  | .error _ => true

/-- The stored form of a background task's terminal result. -/
def statusOfResult : JobResult → JobStatus
  | .completed d => .completed d
  | .error m => .error m

/-- `Map.set`: replace the key's entry in place or append a new one. -/
def setKey {β : Type} : List (String × β) → String → β → List (String × β)
  | [], k, v => [(k, v)]
  | (k2, v2) :: rest, k, v =>
    if k2 == k then (k, v) :: rest else (k2, v2) :: setKey rest k v

/-- `Map.delete`: remove the key's entry. -/
def eraseKey {β : Type} (m : List (String × β)) (k : String) : List (String × β) :=
  m.filter (fun p => p.1 != k)

/-- The operations the source performs on the `jobs` map.  `create` is
the `jobs.set(jobId, {status: 'pending'})` of the upload handler,
`finish` the single terminal `jobs.set` a job's background task
performs, `evict` the `jobs.delete` of the eviction timer, `poll` the
read-only `GET /status/:jobId`. -/
inductive RegAction where
  | create (id : String)
  | finish (id : String) (result : JobResult)
  | evict (id : String)
  | poll (id : String)

/-- One registry step.  The preconditions record the source's control
flow, not in-code checks: `create` happens under a fresh `uuidv4()` id
(modelled as: the id is unused), and `finish` is executed exactly once
per job by that job's own background task, while the entry it wrote at
creation still reads `pending` (no other code writes that id).  A step
whose precondition fails cannot occur, which `none` encodes. -/
def regStep (m : List (String × JobStatus)) : RegAction →
    Option (List (String × JobStatus))
  | .create id =>
    if lookupKey m id = none then some (setKey m id .pending) else none
  | .finish id r =>
    if lookupKey m id = some .pending then some (setKey m id (statusOfResult r)) else none
  | .evict id => some (eraseKey m id)
  | .poll _ => some m

/-! ## Timed eviction (src/index.js lines 236-239, 245-254)

The `finally` clause arms `setTimeout(() => jobs.delete(jobId),
30 * 60 * 1000)` once the background task finishes.  The event loop is
modelled as a clock plus a list of armed `(fireAt, jobId)` timers; a
timer fires exactly when the clock passes its deadline.  Polling is the
pure read `pollStatus` and never changes the state, so eviction timing
is independent of polling by construction. -/

/-- The registry, the armed eviction timers, and the clock (ms). -/
structure SysState where
  jobs : List (String × JobStatus)
  timers : List (Nat × String)
  now : Nat

/-- The retention window: `30 * 60 * 1000` milliseconds. -/
def retentionMs : Nat :=
  30 * 60 * 1000

/-- The background task's end for job `id`: the terminal write and the
`finally` clause arming the eviction timer for `now + 30min`. -/
def finishJob (s : SysState) (id : String) (r : JobResult) : SysState :=
  { s with
    jobs := setKey s.jobs id (statusOfResult r),
    timers := s.timers ++ [(s.now + retentionMs, id)] }

/-- The JSON envelope `GET /status/:jobId` answers with. -/
inductive StatusResponse where
  | notFound (error : String)
  | success (data : List UnifiedRow)
  | failure (error : String)
  | pending
deriving DecidableEq

/-- The `GET /status/:jobId` handler of src/index.js lines 245-254: a
pure read of the registry (404 for an unknown or evicted id). -/
def pollStatus (s : SysState) (id : String) : StatusResponse :=
  match lookupKey s.jobs id with
  | none => .notFound ("Job " ++ id ++ " not found")
  | some (.completed d) => .success d
  | some (.error m) => .failure m
  | some .pending => .pending

/-- Advance the clock to `t`: every timer due by `t` fires, running its
`jobs.delete(jobId)`. -/
def fireTimers (s : SysState) (t : Nat) : SysState :=
  { jobs := s.timers.foldl
      (fun js tm => if tm.1 ≤ t then eraseKey js tm.2 else js) s.jobs,
    timers := s.timers.filter (fun tm => !(decide (tm.1 ≤ t))),
    now := t }

/-! ## Upload acceptance (src/index.js lines 65-73) -/

/-- `req.file` as multer provides it: the declared media type and the
in-memory buffer bytes. -/
structure UploadFile where
  mimetype : String
  buffer : List Nat
deriving DecidableEq

/-- The synchronous answer of `POST /extract`. -/
inductive ExtractResponse where
  | rejected (code : Nat) (status : Bool) (data : List UnifiedRow) (error : String)
  | accepted (status : Bool) (jobId : String) (message : String)
deriving DecidableEq

/-- The upload gate of src/index.js lines 66-73: reject with 400 when
the file is missing or its mimetype does not end in `pdf`, else create
the pending registry entry under the fresh id and acknowledge.
`fresh` stands for the `uuidv4()` result. -/
def handleExtract (file : Option UploadFile) (fresh : String)
    (m : List (String × JobStatus)) :
    ExtractResponse × List (String × JobStatus) :=
  match file with
  | none => (.rejected 400 false [] "Please upload a PDF", m)
  | some f =>
    if endsWithJs f.mimetype "pdf" then
      (.accepted true fresh ("Processing started. Poll /status/" ++ fresh),
        setKey m fresh .pending)
    else
      (.rejected 400 false [] "Please upload a PDF", m)

/-- Whether the upload answer is the acceptance envelope. -/
def isAccepted : ExtractResponse → Bool
  | .accepted _ _ _ => true
  | _ => false

/-- The stateful pass reads nothing at or after the first stop marker:
breaking at the marker equals running the loop on the strict prefix
before it (the after-loop flush plays the break's flush). -/
theorem filterLoop_stop (lines : List String) :
    ∀ (cur : List String) (i : Nat),
      firstStopIdx lines = some i → filterLoop cur lines = filterLoop cur (lines.take i) := by
  induction lines with
  | nil => intro cur i h; simp [firstStopIdx] at h
  | cons line rest ih =>
    intro cur i h
    by_cases hs : stopHit line
    · have hi : i = 0 := by simp [firstStopIdx, hs] at h; omega
      subst hi
      simp [filterLoop, hs, flushRow]
    · have hrest : ∃ j, firstStopIdx rest = some j ∧ j + 1 = i := by
        simpa [firstStopIdx, hs, Option.map_eq_some'] using h
      obtain ⟨j, hj, hij⟩ := hrest
      subst hij
      simp only [List.take_succ_cons]
      have hstep : ∀ cur2, filterLoop cur2 rest = filterLoop cur2 (List.take j rest) :=
        fun cur2 => ih cur2 j hj
      simp [filterLoop, hs, hstep]

/-- C1 (amended): for a line list whose first stop marker stands at
position `i`, the stateful pass equals the pass over the lines strictly
before `i`; a line of the final filtered output can otherwise only come
from the independent header detection (which scans the whole list,
including lines at or after the stop marker), or from the fail-open
fallback when both the pass and the header detection return nothing. -/
theorem c1_stop_marker_amended (lines : List String) (i : Nat)
    (h : firstStopIdx lines = some i) :
    passFilter lines = passFilter (lines.take i) ∧
      ∀ l ∈ filteredLines lines,
        l ∈ headerCandidates lines ∨ l ∈ passFilter (lines.take i) ∨
          (headerCandidates lines = [] ∧ passFilter lines = [] ∧ l ∈ lines) := by
  have hpass : passFilter lines = passFilter (lines.take i) :=
    filterLoop_stop lines [] i h
  refine ⟨hpass, ?_⟩
  intro l hl
  by_cases hh : (headerCandidates lines).isEmpty
  · by_cases hp : (passFilter lines).isEmpty
    · right; right
      exact ⟨List.isEmpty_iff.mp hh, List.isEmpty_iff.mp hp, by
        simpa [filteredLines, hh, hp] using hl⟩
    · right; left
      rw [← hpass]
      simpa [filteredLines, hh, hp] using hl
  · have hne : filteredLines lines = headerCandidates lines ++ passFilter lines := by
      have hcons : ¬(headerCandidates lines ++ passFilter lines).isEmpty := by
        simp only [List.isEmpty_iff] at hh ⊢
        simp [List.append_eq_nil, hh]
      simp [filteredLines, hh, hcons]
    rw [hne] at hl
    rcases List.mem_append.mp hl with h1 | h2
    · exact Or.inl h1
    · right; left; rw [← hpass]; exact h2

/-- C1 witness: a concrete run of the amended theorem, with the stop
marker at position 1. -/
theorem c1_stop_marker_amended_witness :
    passFilter ["1 A, B", "DUE CM"] = passFilter (["1 A, B", "DUE CM"].take 1) ∧
      ∀ l ∈ filteredLines ["1 A, B", "DUE CM"],
        l ∈ headerCandidates ["1 A, B", "DUE CM"] ∨
          l ∈ passFilter (["1 A, B", "DUE CM"].take 1) ∨
          (headerCandidates ["1 A, B", "DUE CM"] = [] ∧ passFilter ["1 A, B", "DUE CM"] = [] ∧
            l ∈ ["1 A, B", "DUE CM"]) :=
  c1_stop_marker_amended ["1 A, B", "DUE CM"] 1 (by decide)

/-- C1 counterexample: in `["NEEDS H0044"]` the first (and only) line
both carries a stop marker and matches the header detection, so the
line at the stop-marker position itself appears in the filtered
output, refuting the claim that no line at or after the stop position
ever does. -/
theorem c1_stop_marker_counterexample :
    firstStopIdx ["NEEDS H0044"] = some 0 ∧
      "NEEDS H0044" ∈ filteredLines ["NEEDS H0044"] ∧
      "NEEDS H0044" ∉ (["NEEDS H0044"] : List String).take 0 := by
  decide

/-- C3: the Row Filter fails open: a non-empty input never filters to
an empty output, and when the pass and the header detection both
return nothing the output is exactly the unfiltered input. -/
theorem c3_filter_fail_open (lines : List String) (h : lines ≠ []) :
    filteredLines lines ≠ [] ∧
      (passFilter lines = [] ∧ headerCandidates lines = [] →
        filteredLines lines = lines) := by
  constructor
  · by_cases hh : (headerCandidates lines).isEmpty
    · by_cases hp : (passFilter lines).isEmpty
      · simpa [filteredLines, hh, hp] using h
      · simp only [List.isEmpty_iff] at hp
        simp [filteredLines, hh, List.isEmpty_iff, hp]
    · have hcons : ¬(headerCandidates lines ++ passFilter lines).isEmpty := by
        simp only [List.isEmpty_iff] at hh ⊢
        simp [List.append_eq_nil, hh]
      simp only [List.isEmpty_iff] at hcons
      simp [filteredLines, hh, List.isEmpty_iff, hcons]
  · intro ⟨hp, hh⟩
    simp [filteredLines, hp, hh]

/-- C3 witness: a line matching no heuristic comes back unchanged via
the fallback. -/
theorem c3_filter_fail_open_witness :
    filteredLines ["hello"] ≠ [] ∧
      (passFilter ["hello"] = [] ∧ headerCandidates ["hello"] = [] →
        filteredLines ["hello"] = ["hello"]) :=
  c3_filter_fail_open ["hello"] (by decide)

/-- C2: with text extracted, a reply that is unparseable or lacks a
`rows` array always ends the job in the terminal `error` state, and a
reply carrying a `rows` array always ends it `completed`. -/
theorem c2_response_shape (dec : String → Option String) (pages : List (List Frag))
    (reply : Option Json) (h : extractLines dec pages ≠ []) :
    ((∀ j rows, reply = some j → j.getField "rows" ≠ some (.arr rows)) →
      ∃ msg, runJob dec pages reply = .error msg) ∧
      ∀ j rows, reply = some j → j.getField "rows" = some (.arr rows) →
        runJob dec pages reply = .completed (normalizeRows rows) := by
  have hne : (extractLines dec pages).isEmpty = false := by
    simpa [List.isEmpty_iff] using h
  constructor
  · intro hbad
    cases reply with
    | none => exact ⟨jsonSyntaxErrorMsg, by simp [runJob, hne]⟩
    | some j =>
      cases hrows : j.getField "rows" with
      | none => exact ⟨"Invalid structure: missing \"rows\" array", by simp [runJob, hne, hrows]⟩
      | some v =>
        cases v with
        | arr rows => exact absurd hrows (hbad j rows rfl)
        | null =>
          exact ⟨"Invalid structure: missing \"rows\" array", by simp [runJob, hne, hrows]⟩
        | bool b =>
          exact ⟨"Invalid structure: missing \"rows\" array", by simp [runJob, hne, hrows]⟩
        | num n =>
          exact ⟨"Invalid structure: missing \"rows\" array", by simp [runJob, hne, hrows]⟩
        | str s =>
          exact ⟨"Invalid structure: missing \"rows\" array", by simp [runJob, hne, hrows]⟩
        | obj fields =>
          exact ⟨"Invalid structure: missing \"rows\" array", by simp [runJob, hne, hrows]⟩
  · intro j rows hr hrows
    subst hr
    simp [runJob, hne, hrows]

/-- C2 witness: a concrete run with one extracted line, once with a
well-formed reply and once with a reply whose `rows` is not an array. -/
theorem c2_response_shape_witness :
    (((∀ j rows, (some (Json.obj [("rows", Json.arr [])]) : Option Json) = some j →
        j.getField "rows" ≠ some (.arr rows)) →
      ∃ msg, runJob decId [[⟨0, 0, "NAME"⟩]] (some (.obj [("rows", .arr [])])) = .error msg) ∧
      ∀ j rows, (some (Json.obj [("rows", Json.arr [])]) : Option Json) = some j →
        j.getField "rows" = some (.arr rows) →
          runJob decId [[⟨0, 0, "NAME"⟩]] (some (.obj [("rows", .arr [])])) =
            .completed (normalizeRows rows)) ∧
      ((∀ j rows, (some (Json.obj [("rows", Json.num 3)]) : Option Json) = some j →
          j.getField "rows" ≠ some (.arr rows)) →
        ∃ msg, runJob decId [[⟨0, 0, "NAME"⟩]] (some (.obj [("rows", .num 3)])) = .error msg) :=
  ⟨c2_response_shape decId [[⟨0, 0, "NAME"⟩]] (some (.obj [("rows", .arr [])])) (by decide),
    (c2_response_shape decId [[⟨0, 0, "NAME"⟩]] (some (.obj [("rows", .num 3)])) (by decide)).1⟩

/-- C7: a document whose extraction yields zero non-empty lines ends in
the `error` state with the `No text extracted from PDF` reason and is
never `completed`, whatever the oracle would have replied. -/
theorem c7_no_text_error (dec : String → Option String) (pages : List (List Frag))
    (reply : Option Json) (h : extractLines dec pages = []) :
    runJob dec pages reply = .error "No text extracted from PDF" ∧
      ∀ d, runJob dec pages reply ≠ .completed d := by
  have hne : (extractLines dec pages).isEmpty = true := by simp [h]
  refine ⟨by simp [runJob, hne], ?_⟩
  intro d
  simp [runJob, hne]

/-- C7 witness: a page whose only fragment fails to decode yields zero
lines, and the job errors even against a well-formed oracle reply. -/
theorem c7_no_text_error_witness :
    runJob decNone [[⟨0, 0, "%ZZ"⟩]] (some (.obj [("rows", .arr [])])) =
        .error "No text extracted from PDF" ∧
      ∀ d, runJob decNone [[⟨0, 0, "%ZZ"⟩]] (some (.obj [("rows", .arr [])])) ≠
        .completed d :=
  c7_no_text_error decNone [[⟨0, 0, "%ZZ"⟩]] (some (.obj [("rows", .arr [])])) (by decide)

/-- C5: a completed job's data is the validated, filtered rows, and no
row of it has all nine fields null or absent. -/
theorem c5_empty_rows_dropped (dec : String → Option String) (pages : List (List Frag))
    (j : Json) (rows : List Json) (h1 : extractLines dec pages ≠ [])
    (h2 : j.getField "rows" = some (.arr rows)) :
    runJob dec pages (some j) = .completed (normalizeRows rows) ∧
      ∀ r ∈ normalizeRows rows, rowAllEmpty r = false := by
  have hne : (extractLines dec pages).isEmpty = false := by
    simpa [List.isEmpty_iff] using h1
  refine ⟨by simp [runJob, hne, h2], ?_⟩
  intro r hr
  have htruthy : rowTruthy r = true := (List.mem_filter.mp hr).2
  obtain ⟨v, hv, hft⟩ := List.any_eq_true.mp htruthy
  have hblank : fieldBlank v = false := by
    cases v with
    | none => simp [fieldTruthy] at hft
    | some o =>
      cases o with
      | none => simp [fieldTruthy] at hft
      | some s => simp [fieldBlank]
  cases hall : rowAllEmpty r with
  | false => rfl
  | true =>
    have := List.all_eq_true.mp hall v hv
    rw [hblank] at this
    exact absurd this (by simp)

/-- C5 witness: one row validating to `null`-only fields and one with a
real name; only the non-empty row survives into the completed data. -/
theorem c5_empty_rows_dropped_witness :
    runJob decId [[⟨0, 0, "NAME"⟩]]
        (some (.obj [("rows", .arr [Json.obj [("Name", Json.null)],
          Json.obj [("Name", Json.str "Doe, Jane")]])])) =
      .completed (normalizeRows [Json.obj [("Name", Json.null)],
        Json.obj [("Name", Json.str "Doe, Jane")]]) ∧
      ∀ r ∈ normalizeRows [Json.obj [("Name", Json.null)],
          Json.obj [("Name", Json.str "Doe, Jane")]],
        rowAllEmpty r = false :=
  c5_empty_rows_dropped decId [[⟨0, 0, "NAME"⟩]] _ _ (by decide) (by rfl)

/-- C6: a row failing `UnifiedRowSchema.safeParse` is replaced by the
empty row, the job still completes, and every row of the completed
data is the successfully validated image of some source row (so a
non-string field value never reaches the result). -/
theorem c6_invalid_row_absorbed (dec : String → Option String) (pages : List (List Frag))
    (j row : Json) (rows : List Json) (h1 : extractLines dec pages ≠ [])
    (h2 : j.getField "rows" = some (.arr rows)) (_h3 : row ∈ rows)
    (h4 : safeParse row = none) :
    normalizeRow row = emptyRow ∧
      runJob dec pages (some j) = .completed (normalizeRows rows) ∧
      ∀ r ∈ normalizeRows rows, ∃ src ∈ rows, safeParse src = some r := by
  have hne : (extractLines dec pages).isEmpty = false := by
    simpa [List.isEmpty_iff] using h1
  refine ⟨by simp [normalizeRow, h4], by simp [runJob, hne, h2], ?_⟩
  intro r hr
  obtain ⟨hmem, htruthy⟩ := List.mem_filter.mp hr
  obtain ⟨src, hsrc, hmap⟩ := List.mem_map.mp hmem
  refine ⟨src, hsrc, ?_⟩
  cases hsp : safeParse src with
  | some u =>
    rw [normalizeRow, hsp] at hmap
    simp only [Option.getD_some] at hmap
    simp [hsp, hmap]
  | none =>
    rw [normalizeRow, hsp] at hmap
    simp only [Option.getD_none] at hmap
    rw [← hmap] at htruthy
    have : rowTruthy emptyRow = false := by rfl
    rw [this] at htruthy
    exact absurd htruthy (by simp)

/-- C6 witness: the spec's example row with numeric `MemberID` fails
validation, is blanked, and the job completes with only the
well-formed rows. -/
theorem c6_invalid_row_absorbed_witness :
    normalizeRow (Json.obj [("Name", Json.str "Doe, Jane"), ("MemberID", Json.num 123)]) =
        emptyRow ∧
      runJob decId [[⟨0, 0, "NAME"⟩]]
          (some (.obj [("rows", .arr [Json.obj [("Name", Json.str "Doe, Jane"),
            ("MemberID", Json.num 123)]])])) =
        .completed (normalizeRows [Json.obj [("Name", Json.str "Doe, Jane"),
          ("MemberID", Json.num 123)]]) ∧
      ∀ r ∈ normalizeRows [Json.obj [("Name", Json.str "Doe, Jane"),
          ("MemberID", Json.num 123)]],
        ∃ src ∈ [Json.obj [("Name", Json.str "Doe, Jane"), ("MemberID", Json.num 123)]],
          safeParse src = some r :=
  c6_invalid_row_absorbed decId [[⟨0, 0, "NAME"⟩]] _ _ _ (by decide) (by rfl)
    (List.mem_singleton.mpr rfl) (by rfl)

/-- Insertion into a sorted list neither adds nor loses elements. -/
theorem mem_insertSorted {α : Type} (le : α → α → Bool) (a b : α) (l : List α) :
    b ∈ insertSorted le a l ↔ b = a ∨ b ∈ l := by
  induction l with
  | nil => simp [insertSorted]
  | cons c rest ih =>
    by_cases h : le a c
    · simp [insertSorted, h]
    · simp only [insertSorted, h, if_false, Bool.false_eq_true, List.mem_cons, ih]
      tauto

/-- The stable sort is a membership-preserving rearrangement. -/
theorem mem_sortBy {α : Type} (le : α → α → Bool) (l : List α) (a : α) :
    a ∈ sortBy le l ↔ a ∈ l := by
  induction l with
  | nil => simp [sortBy]
  | cons b rest ih => simp [sortBy, mem_insertSorted, ih]

/-- Filing one fragment keeps every fragment already filed and adds the
new one to some group. -/
theorem mem_insertFrag (gs : List (Int × List Frag)) (p f : Frag)
    (h : f = p ∨ ∃ k fs, (k, fs) ∈ gs ∧ f ∈ fs) :
    ∃ k fs, (k, fs) ∈ insertFrag gs p ∧ f ∈ fs := by
  induction gs with
  | nil =>
    rcases h with h | ⟨k, fs, hmem, _⟩
    · exact ⟨p.y, [p], by simp [insertFrag], by simp [h]⟩
    · simp at hmem
  | cons g rest ih =>
    obtain ⟨k0, fs0⟩ := g
    by_cases hk : (k0 == p.y) = true
    · rcases h with h | ⟨k, fs, hmem, hf⟩
      · exact ⟨k0, fs0 ++ [p], by simp [insertFrag, hk], by simp [h]⟩
      · rcases List.mem_cons.mp hmem with he | hr
        · obtain ⟨hk2, hfs2⟩ := Prod.mk.injEq .. ▸ he
          exact ⟨k0, fs0 ++ [p], by simp [insertFrag, hk], by
            simp [List.mem_append, ← hfs2, hf]⟩
        · exact ⟨k, fs, by simp [insertFrag, hk, hr], hf⟩
    · have step : insertFrag ((k0, fs0) :: rest) p = (k0, fs0) :: insertFrag rest p := by
        simp [insertFrag, hk]
      rcases h with h | ⟨k, fs, hmem, hf⟩
      · obtain ⟨k2, fs2, hm, hf2⟩ := ih (Or.inl h)
        exact ⟨k2, fs2, by simp [step, hm], hf2⟩
      · rcases List.mem_cons.mp hmem with he | hr
        · obtain ⟨hk2, hfs2⟩ := Prod.mk.injEq .. ▸ he
          exact ⟨k0, fs0, by simp [step], by rw [← hfs2]; exact hf⟩
        · obtain ⟨k2, fs2, hm, hf2⟩ := ih (Or.inr ⟨k, fs, hr, hf⟩)
          exact ⟨k2, fs2, by simp [step, hm], hf2⟩

/-- Every fragment filed so far survives folding the rest of the page
into the grouping. -/
theorem mem_foldl_insertFrag (page : List Frag) :
    ∀ (gs : List (Int × List Frag)) (f : Frag),
      (f ∈ page ∨ ∃ k fs, (k, fs) ∈ gs ∧ f ∈ fs) →
      ∃ k fs, (k, fs) ∈ page.foldl insertFrag gs ∧ f ∈ fs := by
  induction page with
  | nil =>
    intro gs f h
    rcases h with h | h
    · simp at h
    · simpa using h
  | cons p rest ih =>
    intro gs f h
    show ∃ k fs, (k, fs) ∈ rest.foldl insertFrag (insertFrag gs p) ∧ f ∈ fs
    apply ih (insertFrag gs p) f
    rcases h with h | h
    · rcases List.mem_cons.mp h with he | hr
      · exact Or.inr (mem_insertFrag gs p f (Or.inl he))
      · exact Or.inl hr
    · exact Or.inr (mem_insertFrag gs p f (Or.inr h))

/-- Every fragment of a page lands in one of its `y` groups. -/
theorem mem_groupByY (page : List Frag) (f : Frag) (h : f ∈ page) :
    ∃ k fs, (k, fs) ∈ groupByY page ∧ f ∈ fs :=
  mem_foldl_insertFrag page [] f (Or.inl h)

/-- C8 (amended): in the position-aware extractor of
src/unnamed/part_001 every fragment of every page reaches the output,
carrying its decoded text, and when the decode fails its raw undecoded
text; the skipping behaviour refuted for src/index.js is in the
counterexample. -/
theorem c8_fallback_raw_amended (dec : String → Option String)
    (pages : List (List Frag)) (page : List Frag) (f : Frag)
    (h1 : page ∈ pages) (h2 : f ∈ page) :
    (f.x, (dec f.t).getD f.t) ∈ ((pageRowsP1 dec pages).map List.flatten).flatten ∧
      (dec f.t = none →
        (f.x, f.t) ∈ ((pageRowsP1 dec pages).map List.flatten).flatten) := by
  have key : (f.x, (dec f.t).getD f.t) ∈ ((pageRowsP1 dec pages).map List.flatten).flatten := by
    obtain ⟨k, fs, hg, hf⟩ := mem_groupByY page f h2
    have hg2 : (k, fs) ∈ sortGroupsByY (groupByY page) :=
      (mem_sortBy _ _ _).mpr hg
    have hrow :
        sortPairsByX (fs.map (fun fr => (fr.x, (dec fr.t).getD fr.t))) ∈
          (sortGroupsByY (groupByY page)).map (fun g =>
            sortPairsByX (g.2.map (fun fr => (fr.x, (dec fr.t).getD fr.t)))) :=
      List.mem_map_of_mem (fun g =>
        sortPairsByX (g.2.map (fun fr => (fr.x, (dec fr.t).getD fr.t)))) hg2
    have hpair : (f.x, (dec f.t).getD f.t) ∈
        sortPairsByX (fs.map (fun fr => (fr.x, (dec fr.t).getD fr.t))) :=
      (mem_sortBy _ _ _).mpr
        (List.mem_map_of_mem (fun fr => (fr.x, (dec fr.t).getD fr.t)) hf)
    have hpage : (sortGroupsByY (groupByY page)).map (fun g =>
        sortPairsByX (g.2.map (fun fr => (fr.x, (dec fr.t).getD fr.t)))) ∈
          pageRowsP1 dec pages :=
      List.mem_map_of_mem (fun pg =>
        (sortGroupsByY (groupByY pg)).map (fun g =>
          sortPairsByX (g.2.map (fun fr => (fr.x, (dec fr.t).getD fr.t))))) h1
    refine List.mem_flatten.mpr ⟨_, List.mem_map_of_mem List.flatten hpage, ?_⟩
    exact List.mem_flatten.mpr ⟨_, hrow, hpair⟩
  refine ⟨key, fun hnone => ?_⟩
  simpa [hnone] using key

/-- C8 witness: a fragment whose decode fails appears with its raw text
in the position-aware output. -/
theorem c8_fallback_raw_amended_witness :
    ((Frag.mk 0 0 "%ZZ").x, (decNone (Frag.mk 0 0 "%ZZ").t).getD (Frag.mk 0 0 "%ZZ").t) ∈
        ((pageRowsP1 decNone [[Frag.mk 0 0 "%ZZ"]]).map List.flatten).flatten ∧
      (decNone (Frag.mk 0 0 "%ZZ").t = none →
        ((Frag.mk 0 0 "%ZZ").x, (Frag.mk 0 0 "%ZZ").t) ∈
          ((pageRowsP1 decNone [[Frag.mk 0 0 "%ZZ"]]).map List.flatten).flatten) :=
  c8_fallback_raw_amended decNone [[Frag.mk 0 0 "%ZZ"]] [Frag.mk 0 0 "%ZZ"]
    (Frag.mk 0 0 "%ZZ") (by simp) (by simp)

/-- C8 counterexample: the extractor actually used by src/index.js
drops a fragment whose decode fails — with the page's only fragment
undecodable the extracted line list is empty, so the raw text `%ZZ`
appears in no extracted line, refuting fallback-to-raw for the
repository's active Text Line Extractor. -/
theorem c8_decode_fallback_counterexample :
    decNone "%ZZ" = none ∧ extractLines decNone [[Frag.mk 0 0 "%ZZ"]] = [] :=
  ⟨rfl, by decide⟩

/-- `Map.get` after `Map.set`. -/
theorem lookupKey_setKey {β : Type} (m : List (String × β)) (k id : String) (v : β) :
    lookupKey (setKey m k v) id = if k = id then some v else lookupKey m id := by
  induction m with
  | nil =>
    by_cases h : k = id <;> simp [setKey, lookupKey, beq_iff_eq, h]
  | cons p rest ih =>
    obtain ⟨k2, v2⟩ := p
    simp only [setKey]
    by_cases h2 : k2 = k
    · rw [if_pos (by simp [h2])]
      subst h2
      simp only [lookupKey]
      by_cases h : k2 = id
      · simp [beq_iff_eq, h]
      · simp [beq_iff_eq, h]
    · rw [if_neg (by simp [h2])]
      simp only [lookupKey]
      by_cases h3 : k2 = id
      · have hk : ¬k = id := fun he => h2 (h3.trans he.symm)
        simp [beq_iff_eq, h3, hk]
      · simp [beq_iff_eq, h3, ih]

/-- `Map.get` after `Map.delete`. -/
theorem lookupKey_eraseKey {β : Type} (m : List (String × β)) (k id : String) :
    lookupKey (eraseKey m k) id = if k = id then none else lookupKey m id := by
  induction m with
  | nil => by_cases h : k = id <;> simp [eraseKey, lookupKey, h]
  | cons p rest ih =>
    obtain ⟨k2, v2⟩ := p
    by_cases h2 : k2 = k
    · have hdrop : eraseKey ((k2, v2) :: rest) k = eraseKey rest k := by
        simp [eraseKey, List.filter_cons, h2]
      rw [hdrop, ih]
      by_cases h : k = id
      · simp [h]
      · have hk2 : ¬k2 = id := fun he => h (h2.symm.trans he)
        simp [lookupKey, beq_iff_eq, h, hk2]
    · have hkeep : eraseKey ((k2, v2) :: rest) k = (k2, v2) :: eraseKey rest k := by
        simp [eraseKey, List.filter_cons, bne_iff_ne, h2]
      rw [hkeep]
      simp only [lookupKey]
      by_cases h3 : k2 = id
      · have hk : ¬k = id := fun he => h2 (h3.trans he.symm)
        simp [beq_iff_eq, h3, hk]
      · simp [beq_iff_eq, h3, ih]

/-- C4: a terminal registry entry survives every possible step
unchanged (eviction removes it whole, never rewrites it), and no
`finish` step can touch that id again — the terminal transition is
unique. -/
theorem c4_terminal_immutable (m m' : List (String × JobStatus)) (id : String)
    (st : JobStatus) (a : RegAction) (h1 : lookupKey m id = some st)
    (h2 : isTerminal st = true) (h3 : regStep m a = some m') :
    (lookupKey m' id = some st ∨ (a = .evict id ∧ lookupKey m' id = none)) ∧
      ∀ r, a ≠ .finish id r := by
  cases a with
  | create cid =>
    refine ⟨?_, by intro r h; exact RegAction.noConfusion h⟩
    by_cases hg : lookupKey m cid = none
    · have hm : m' = setKey m cid .pending := by
        rw [regStep, if_pos hg] at h3
        exact (Option.some_inj.mp h3).symm
      have hcid : cid ≠ id := by
        intro he
        rw [he, h1] at hg
        exact Option.noConfusion hg
      left
      rw [hm, lookupKey_setKey, if_neg hcid]
      exact h1
    · rw [regStep, if_neg hg] at h3
      exact Option.noConfusion h3
  | finish fid r =>
    by_cases hg : lookupKey m fid = some JobStatus.pending
    · have hfid : fid ≠ id := by
        intro he
        rw [he, h1] at hg
        have hst : st = JobStatus.pending := Option.some_inj.mp hg
        rw [hst] at h2
        simp [isTerminal] at h2
      have hm : m' = setKey m fid (statusOfResult r) := by
        rw [regStep, if_pos hg] at h3
        exact (Option.some_inj.mp h3).symm
      refine ⟨?_, ?_⟩
      · left
        rw [hm, lookupKey_setKey, if_neg hfid]
        exact h1
      · intro r2 he
        cases he
        exact hfid rfl
    · rw [regStep, if_neg hg] at h3
      exact Option.noConfusion h3
  | evict eid =>
    have hm : m' = eraseKey m eid := by
      rw [regStep] at h3
      exact (Option.some_inj.mp h3).symm
    refine ⟨?_, by intro r h; exact RegAction.noConfusion h⟩
    by_cases he : eid = id
    · subst he
      right
      exact ⟨rfl, by rw [hm, lookupKey_eraseKey, if_pos rfl]⟩
    · left
      rw [hm, lookupKey_eraseKey, if_neg he]
      exact h1
  | poll pid =>
    have hm : m' = m := by
      rw [regStep] at h3
      exact (Option.some_inj.mp h3).symm
    exact ⟨Or.inl (hm ▸ h1), by intro r h; exact RegAction.noConfusion h⟩

/-- C4 witness: a registry holding a completed job takes a `create`
step for a fresh id; the terminal entry is untouched. -/
theorem c4_terminal_immutable_witness :
    (lookupKey (setKey [("a", JobStatus.completed [])] "b" JobStatus.pending) "a" =
        some (JobStatus.completed []) ∨
      (RegAction.create "b" = RegAction.evict "a" ∧
        lookupKey (setKey [("a", JobStatus.completed [])] "b" JobStatus.pending) "a" = none)) ∧
      ∀ r, RegAction.create "b" ≠ RegAction.finish "a" r :=
  c4_terminal_immutable [("a", JobStatus.completed [])]
    (setKey [("a", JobStatus.completed [])] "b" JobStatus.pending) "a"
    (JobStatus.completed []) (RegAction.create "b") (by rfl) (by rfl) (by rfl)

/-- An id absent from the registry stays absent while timers fire
(`Map.delete` never adds entries). -/
theorem lookupKey_fold_erase_none (tms : List (Nat × String)) (t : Nat) :
    ∀ (js : List (String × JobStatus)) (id : String), lookupKey js id = none →
      lookupKey (tms.foldl
        (fun js2 tm => if tm.1 ≤ t then eraseKey js2 tm.2 else js2) js) id = none := by
  induction tms with
  | nil => intro js id h; simpa using h
  | cons tm rest ih =>
    intro js id h
    simp only [List.foldl_cons]
    apply ih
    by_cases htm : tm.1 ≤ t
    · rw [if_pos htm, lookupKey_eraseKey, h]
      simp
    · rwa [if_neg htm]

/-- Firing timers none of which is a due timer for `id` leaves `id`'s
entry untouched. -/
theorem lookupKey_fold_erase_notdue (tms : List (Nat × String)) (t : Nat) :
    ∀ (js : List (String × JobStatus)) (id : String),
      (∀ tm ∈ tms, tm.1 ≤ t → tm.2 ≠ id) →
      lookupKey (tms.foldl
        (fun js2 tm => if tm.1 ≤ t then eraseKey js2 tm.2 else js2) js) id =
        lookupKey js id := by
  induction tms with
  | nil => intro js id _; rfl
  | cons tm rest ih =>
    intro js id h
    simp only [List.foldl_cons]
    rw [ih _ id (fun tm2 hm hle => h tm2 (List.mem_cons_of_mem tm hm) hle)]
    by_cases htm : tm.1 ≤ t
    · rw [if_pos htm, lookupKey_eraseKey,
        if_neg (h tm (List.mem_cons_self tm rest) htm)]
    · rw [if_neg htm]

/-- A due timer for `id` forces `id` out of the registry. -/
theorem lookupKey_fold_erase_fired (tms : List (Nat × String)) (t : Nat) :
    ∀ (js : List (String × JobStatus)) (id : String),
      (∃ tm ∈ tms, tm.1 ≤ t ∧ tm.2 = id) →
      lookupKey (tms.foldl
        (fun js2 tm => if tm.1 ≤ t then eraseKey js2 tm.2 else js2) js) id = none := by
  induction tms with
  | nil => intro js id h; simp at h
  | cons tm rest ih =>
    intro js id h
    obtain ⟨tm2, hmem, hle, hid⟩ := h
    simp only [List.foldl_cons]
    rcases List.mem_cons.mp hmem with he | hr
    · subst he
      rw [if_pos hle]
      apply lookupKey_fold_erase_none
      rw [lookupKey_eraseKey, hid]
      simp
    · exact ih _ id ⟨tm2, hr, hle, hid⟩

/-- C9: finishing a job (completed or errored) arms exactly one timer,
due exactly `30 * 60 * 1000` ms after the finish; once the clock passes
that deadline the entry is gone and `GET /status/:jobId` answers
not-found.  Polling is the pure read `pollStatus` and appears in no
state transition, so none of this depends on polling activity. -/
theorem c9_timed_eviction (s : SysState) (id : String) (r : JobResult) (t : Nat)
    (h : s.now + retentionMs ≤ t) :
    (s.now + retentionMs, id) ∈ (finishJob s id r).timers ∧
      retentionMs = 1800000 ∧
      lookupKey (fireTimers (finishJob s id r) t).jobs id = none ∧
      pollStatus (fireTimers (finishJob s id r) t) id =
        .notFound ("Job " ++ id ++ " not found") ∧
      ∀ t2, t2 < s.now + retentionMs →
        (∀ tm ∈ s.timers, tm.1 ≤ t2 → tm.2 ≠ id) →
        lookupKey (fireTimers (finishJob s id r) t2).jobs id =
          some (statusOfResult r) := by
  have hlook : lookupKey (fireTimers (finishJob s id r) t).jobs id = none := by
    apply lookupKey_fold_erase_fired
    exact ⟨(s.now + retentionMs, id), by simp [finishJob], h, rfl⟩
  refine ⟨by simp [finishJob], by rfl, hlook, by rw [pollStatus, hlook], ?_⟩
  intro t2 ht2 hothers
  have hnone : ∀ tm ∈ (finishJob s id r).timers, tm.1 ≤ t2 → tm.2 ≠ id := by
    intro tm hm hle
    rcases (by simpa [finishJob] using hm :
        tm ∈ s.timers ∨ tm = (s.now + retentionMs, id)) with hold | hnew
    · exact hothers tm hold hle
    · rw [hnew] at hle
      omega
  show lookupKey ((finishJob s id r).timers.foldl
      (fun js2 tm => if tm.1 ≤ t2 then eraseKey js2 tm.2 else js2)
      (finishJob s id r).jobs) id = some (statusOfResult r)
  rw [lookupKey_fold_erase_notdue _ t2 _ id hnone]
  show lookupKey (setKey s.jobs id (statusOfResult r)) id = some (statusOfResult r)
  rw [lookupKey_setKey, if_pos rfl]

/-- C9 witness: a job finishing at clock 0 is evicted once the clock
reaches the 30-minute mark. -/
theorem c9_timed_eviction_witness :
    ((SysState.mk [] [] 0).now + retentionMs, "a") ∈
        (finishJob (SysState.mk [] [] 0) "a" (JobResult.error "boom")).timers ∧
      retentionMs = 1800000 ∧
      lookupKey (fireTimers (finishJob (SysState.mk [] [] 0) "a"
        (JobResult.error "boom")) 1800000).jobs "a" = none ∧
      pollStatus (fireTimers (finishJob (SysState.mk [] [] 0) "a"
          (JobResult.error "boom")) 1800000) "a" =
        .notFound ("Job " ++ "a" ++ " not found") ∧
      ∀ t2, t2 < (SysState.mk [] [] 0).now + retentionMs →
        (∀ tm ∈ (SysState.mk [] [] 0).timers, tm.1 ≤ t2 → tm.2 ≠ "a") →
        lookupKey (fireTimers (finishJob (SysState.mk [] [] 0) "a"
            (JobResult.error "boom")) t2).jobs "a" =
          some (statusOfResult (JobResult.error "boom")) :=
  c9_timed_eviction (SysState.mk [] [] 0) "a" (JobResult.error "boom") 1800000 (by decide)

/-- C10: `POST /extract` accepts exactly when a file is present and its
declared mimetype ends in `pdf`; any rejection is the 400 envelope
`{status: false, data: [], error: "Please upload a PDF"}` with the
registry left untouched (no job entry created). -/
theorem c10_upload_acceptance (file : Option UploadFile) (fresh : String)
    (m : List (String × JobStatus)) :
    (isAccepted (handleExtract file fresh m).1 = true ↔
      ∃ f, file = some f ∧ endsWithJs f.mimetype "pdf" = true) ∧
      (isAccepted (handleExtract file fresh m).1 = false →
        handleExtract file fresh m =
          (.rejected 400 false [] "Please upload a PDF", m)) := by
  cases file with
  | none => simp [handleExtract, isAccepted]
  | some f =>
    by_cases hp : endsWithJs f.mimetype "pdf" = true
    · simp [handleExtract, hp, isAccepted]
    · have hp2 : endsWithJs f.mimetype "pdf" = false := by
        cases hb : endsWithJs f.mimetype "pdf"
        · rfl
        · exact absurd hb hp
      simp [handleExtract, hp2, isAccepted]

/-- C10 witness: `application/x-pdf` is accepted (suffix match) while
`image/png` is rejected with the 400 envelope and no registry write. -/
theorem c10_upload_acceptance_witness :
    ((isAccepted (handleExtract (some (UploadFile.mk "application/x-pdf" []))
          "job1" []).1 = true ↔
        ∃ f, (some (UploadFile.mk "application/x-pdf" []) : Option UploadFile) = some f ∧
          endsWithJs f.mimetype "pdf" = true) ∧
      (isAccepted (handleExtract (some (UploadFile.mk "application/x-pdf" []))
          "job1" []).1 = false →
        handleExtract (some (UploadFile.mk "application/x-pdf" [])) "job1" [] =
          (.rejected 400 false [] "Please upload a PDF", []))) ∧
      ((isAccepted (handleExtract (some (UploadFile.mk "image/png" []))
          "job2" []).1 = true ↔
        ∃ f, (some (UploadFile.mk "image/png" []) : Option UploadFile) = some f ∧
          endsWithJs f.mimetype "pdf" = true) ∧
      (isAccepted (handleExtract (some (UploadFile.mk "image/png" []))
          "job2" []).1 = false →
        handleExtract (some (UploadFile.mk "image/png" [])) "job2" [] =
          (.rejected 400 false [] "Please upload a PDF", []))) :=
  ⟨c10_upload_acceptance (some (UploadFile.mk "application/x-pdf" [])) "job1" [],
    c10_upload_acceptance (some (UploadFile.mk "image/png" [])) "job2" []⟩

end CmomApi
